import Mathlib

/-!
bot-mbkm: change detection and the scheduler tick

A shallow embedding of `src/main.go`:

* `formatNotification` (lines 83-118), the change detector, together with its
  loop body `processActivity` (lines 96-114);
* `checkForChanges` (lines 120-149), one scheduler tick, with the results of
  `fetchData` and `sendDiscordNotification` supplied as inputs.

JSON text is represented by its decoded document (`JVal`); `none` stands for a
body that `json.Unmarshal` rejects. A Go run-time panic (a failed single-value
type assertion) is the `none` of the result type `Option _`: the process has no
`recover`, so a panic ends it.
-/

namespace BotMbkm

/-! ## Data model -/

/-- A decoded JSON document, as `encoding/json` stores it in an `interface{}`:
`nil`, `bool`, `float64` (carried by its exact rational value), `string`,
`[]interface{}` and `map[string]interface{}` (members kept in document order). -/
inductive JVal where
  | null : JVal
  | bool (b : Bool) : JVal
  | num (f : ℚ) : JVal
  | str (s : String) : JVal
  | arr (items : List JVal) : JVal
  | obj (fields : List (String × JVal)) : JVal

/-- The Go variable `lastResponse map[int]string`: last observed status per activity id. -/
abbrev StatusMap := Int → Option String

/-- The map built by `make(map[int]string)` in `loadEnvVariables`. -/
def emptyMap : StatusMap := fun _ => none

/-- The assignment `lastResponse[id] = status`. -/
def setStatus (m : StatusMap) (id : Int) (status : String) : StatusMap :=
  fun k => if k = id then some status else m k

/-- Member lookup in a decoded object. The decoder stores members in document
order into a Go map, so a repeated key keeps its last value. -/
def lookup : List (String × JVal) → String → Option JVal
  | [], _ => none
  | (k, v) :: rest, key =>
    match lookup rest key with
    | some w => some w
    | none => if k = key then some v else none

/-- The Go index expression `m[key]` on a `map[string]interface{}`: an absent key
yields the nil interface, which is also what JSON `null` decodes to. -/
def index (fields : List (String × JVal)) (key : String) : JVal :=
  match lookup fields key with
  | some v => v
  | none => JVal.null

/-- The conversion `int(f)` of a `float64` to a 64-bit `int`: truncation toward
zero. Outside the range of `int` Go leaves the result to the implementation; the
value used here is the one amd64 produces. -/
def f64ToInt (f : ℚ) : Int :=
  let t := Int.tdiv f.num (f.den : Int)
  if -(2 ^ 63 : Int) ≤ t ∧ t < (2 ^ 63 : Int) then t else -(2 ^ 63 : Int)

/-- The operand of a `%s` verb in `fmt.Sprintf`: a string is written as is and a
nil interface as `%!s(<nil>)`. How any other dynamic type is rendered (such as
`%!s(float64=1)` for a number) is the parameter `badVerb`. -/
def sprintS (badVerb : JVal → String) : JVal → String
  | JVal.str s => s
  | JVal.null => "%!s(<nil>)"
  | v => badVerb v

/-- The three loop variables of `formatNotification`: the two locals `message`,
`imageURL` and the global `lastResponse`. -/
structure Acc where
  message : String
  imageURL : String
  lastResponse : StatusMap

/-- The two errors `formatNotification` returns. -/
inductive FormatError where
  | unmarshal : FormatError
  | unexpectedDataFormat : FormatError
  deriving DecidableEq, Repr

/-- What a call of `formatNotification` that returns leaves behind: its three
results and the global `lastResponse`. -/
structure Ret where
  message : String
  imageURL : String
  err : Option FormatError
  lastResponse : StatusMap

/-! ## The change detector -/

/-- The body of the `for` loop of `formatNotification` (lines 96-114); `none` is a
panic raised by one of the single-value type assertions. -/
def processActivity (badVerb : JVal → String) (st : Acc) (activity : JVal) : Option Acc :=
  match activity with
  | JVal.obj act =>
    match index act "id" with
    | JVal.num f =>
      let id := f64ToInt f
      match index act "status" with
      | JVal.str status =>
        if status = "PROCESSED" then some st
        else
          let changed : Bool :=
            match st.lastResponse id with
            | none => true
            | some lastStatus => decide (lastStatus ≠ status)
          if changed then
            let message := st.message ++ ("**Activity:** " ++ sprintS badVerb (index act "nama_kegiatan") ++ "\n")
            let message := message ++ ("**Partner:** " ++ sprintS badVerb (index act "mitra_brand_name") ++ "\n")
            let message := message ++ ("**Status:** " ++ status ++ "\n")
            match index act "mitra_logo" with
            | JVal.str url => some ⟨message, url, setStatus st.lastResponse id status⟩
            | _ => none
          else some st
      | _ => none
    | _ => none
  | _ => some st

/-- The loop variables on entry: `var message, imageURL string` (line 94) and
the global map as the call finds it. -/
def startAcc (lastResponse : StatusMap) : Acc := ⟨"", "", lastResponse⟩

/-- The `for _, activity := range activities` loop. -/
def formatLoop (badVerb : JVal → String) : Acc → List JVal → Option Acc
  | st, [] => some st
  | st, activity :: rest =>
    match processActivity badVerb st activity with
    | some st1 => formatLoop badVerb st1 rest
    | none => none

/-- The function `formatNotification` (lines 83-118). `data` is the decoded body,
`none` when it is not a JSON text `json.Unmarshal` accepts. -/
def formatNotification (badVerb : JVal → String) (data : Option JVal) (lastResponse : StatusMap) :
    Option Ret :=
  match data with
  | none => some ⟨"", "", some FormatError.unmarshal, lastResponse⟩
  | some (JVal.obj responseData) =>
    match index responseData "data" with
    | JVal.arr activities =>
      match formatLoop badVerb (startAcc lastResponse) activities with
      | some st => some ⟨st.message, st.imageURL, none, st.lastResponse⟩
      | none => none
    | _ => some ⟨"", "", some FormatError.unexpectedDataFormat, lastResponse⟩
  | some JVal.null => some ⟨"", "", some FormatError.unexpectedDataFormat, lastResponse⟩
  | some _ => some ⟨"", "", some FormatError.unmarshal, lastResponse⟩

/-! ## The scheduler tick -/

/-- One invocation `sendDiscordNotification(message, imageURL)`. -/
structure Call where
  message : String
  imageURL : String
  deriving DecidableEq, Repr

/-- The lines `checkForChanges` writes with `log.Println` (the error text left out). -/
inductive LogLine where
  | initialSendError : LogLine
  | initialSent : LogLine
  | fetchError : LogLine
  | formatError : LogLine
  | sendError : LogLine
  | sent : LogLine
  deriving DecidableEq, Repr

/-- The result of `fetchData()`: an error, or the response body (given decoded). -/
inductive Fetched where
  | failed : Fetched
  | body (data : Option JVal) : Fetched

/-- What the outside world answers during one tick: whether the POST of the
start-up notification succeeds, what the fetch returns, and whether the POST of
the change notification succeeds. -/
structure TickInput where
  upDelivered : Bool
  fetched : Fetched
  delivered : Bool

/-- The globals `firstRun` and `lastResponse`. -/
structure Globals where
  firstRun : Bool
  lastResponse : StatusMap

/-- The effects of one tick: the webhook calls made, in order, the log lines, and
the globals afterwards (`none` when the tick ended in a panic). -/
structure TickResult where
  calls : List Call
  logs : List LogLine
  next : Option Globals

/-- The notification sent at line 122. -/
def upCall : Call := ⟨"Your Bot is UP!", "https://example.com/default-image.png"⟩

/-- The function `checkForChanges` (lines 120-149). -/
def checkForChanges (badVerb : JVal → String) (g : Globals) (inp : TickInput) : TickResult :=
  let calls0 : List Call := if g.firstRun then [upCall] else []
  let logs0 : List LogLine :=
    if g.firstRun then
      (if inp.upDelivered then [LogLine.initialSent] else [LogLine.initialSendError])
    else []
  let firstRun : Bool := if g.firstRun then false else g.firstRun
  match inp.fetched with
  | Fetched.failed => ⟨calls0, logs0 ++ [LogLine.fetchError], some ⟨firstRun, g.lastResponse⟩⟩
  | Fetched.body data =>
    match formatNotification badVerb data g.lastResponse with
    | none => ⟨calls0, logs0, none⟩
    | some ret =>
      match ret.err with
      | some _ => ⟨calls0, logs0 ++ [LogLine.formatError], some ⟨firstRun, ret.lastResponse⟩⟩
      | none =>
        if ret.message ≠ "" then
          ⟨calls0 ++ [⟨ret.message, ret.imageURL⟩],
            logs0 ++ (if inp.delivered then [LogLine.sent] else [LogLine.sendError]),
            some ⟨firstRun, ret.lastResponse⟩⟩
        else ⟨calls0, logs0, some ⟨firstRun, ret.lastResponse⟩⟩

/-- The globals when `main` enters its loop: `firstRun = true` and the empty map
set up by `loadEnvVariables`. -/
def initialGlobals : Globals := ⟨true, emptyMap⟩

/-- The `for` loop of `main` over a finite run of ticks; the run stops at a panic. -/
def runTicks (badVerb : JVal → String) : Globals → List TickInput → List TickResult
  | _, [] => []
  | g, inp :: rest =>
    let r := checkForChanges badVerb g inp
    match r.next with
    | some g1 => r :: runTicks badVerb g1 rest
    | none => [r]

/-! ## Observations used to state the properties -/

/-- The activity id the loop body computes for a record, `int(act["id"].(float64))`;
`none` when the record is not an object or its `id` is not a number. -/
def recId : JVal → Option Int
  | JVal.obj act =>
    match index act "id" with
    | JVal.num f => some (f64ToInt f)
    | _ => none
  | _ => none

/-- The status of a record, `act["status"].(string)`. -/
def recStatus : JVal → Option String
  | JVal.obj act =>
    match index act "status" with
    | JVal.str s => some s
    | _ => none
  | _ => none

/-- The logo URL of a record, `act["mitra_logo"].(string)`. -/
def recLogo : JVal → Option String
  | JVal.obj act =>
    match index act "mitra_logo" with
    | JVal.str s => some s
    | _ => none
  | _ => none

/-- A well-formed activity record: an object whose `id` is a number and whose
`status` and `mitra_logo` are strings. -/
def wellFormed (r : JVal) : Bool :=
  (recId r).isSome && (recStatus r).isSome && (recLogo r).isSome

/-- The three lines appended for a record at lines 109-111. -/
def blockText (badVerb : JVal → String) : JVal → String
  | JVal.obj act =>
    "**Activity:** " ++ sprintS badVerb (index act "nama_kegiatan") ++ "\n"
      ++ ("**Partner:** " ++ sprintS badVerb (index act "mitra_brand_name") ++ "\n")
      ++ ("**Status:** " ++ (recStatus (JVal.obj act)).getD "" ++ "\n")
  | _ => ""

/-- The records at which the loop body, run from `st` over the payload, extended
`message` (a block was emitted for them), in payload order. -/
def blocksEmitted (badVerb : JVal → String) : Acc → List JVal → List JVal
  | _, [] => []
  | st, r :: rest =>
    match processActivity badVerb st r with
    | none => []
    | some st1 =>
      if st1.message = st.message then blocksEmitted badVerb st1 rest
      else r :: blocksEmitted badVerb st1 rest

/-- The slice `activities` of line 89, when lines 84-92 return no error: the
payload decodes to an object whose `data` member is an array. -/
def activitiesOf : Option JVal → Option (List JVal)
  | some (JVal.obj responseData) =>
    match index responseData "data" with
    | JVal.arr activities => some activities
    | _ => none
  | _ => none

/-- The records the loop of `formatNotification` ranges over (none when the call
returns an error before the loop). -/
def payloadRecords (data : Option JVal) : List JVal :=
  (activitiesOf data).getD []

/-- The blocks of a list of records, one after the other. -/
def concatBlocks (badVerb : JVal → String) : List JVal → String
  | [] => ""
  | r :: rest => blockText badVerb r ++ concatBlocks badVerb rest

/-- A record built from the five fields of the upstream API. -/
def mkRecord (id : Int) (status name partner logo : String) : JVal :=
  JVal.obj [("id", JVal.num id), ("status", JVal.str status), ("nama_kegiatan", JVal.str name),
    ("mitra_brand_name", JVal.str partner), ("mitra_logo", JVal.str logo)]

/-- The payload `{"data": [...]}`. -/
def mkPayload (records : List JVal) : Option JVal :=
  some (JVal.obj [("data", JVal.arr records)])

/-! ## Example inputs and side conditions -/

/-- The record of the worked example: id 1, `ACTIVE`, name `A`, partner `B`. -/
def activeRecord : JVal := mkRecord 1 "ACTIVE" "A" "B" "http://x/img.png"

/-- A record with the ignored status. -/
def processedRecord : JVal := mkRecord 2 "PROCESSED" "P" "Q" "http://x/p.png"

/-- A rendering for operands of `%s` that are neither strings nor nil, for the examples. -/
def plainVerb : JVal → String := fun _ => "%!s(?)"

/-- A well-formed record whose logo URL is the empty string. -/
def noLogoRecord : JVal := mkRecord 1 "ACTIVE" "A" "B" ""

/-- A record without `id`. -/
def missingIdRecord : JVal :=
  JVal.obj [("status", JVal.str "ACTIVE"), ("nama_kegiatan", JVal.str "A"),
    ("mitra_brand_name", JVal.str "B"), ("mitra_logo", JVal.str "http://x/img.png")]

/-- A record whose `status` is a number. -/
def numericStatusRecord : JVal :=
  JVal.obj [("id", JVal.num 3), ("status", JVal.num 7), ("nama_kegiatan", JVal.str "A"),
    ("mitra_brand_name", JVal.str "B"), ("mitra_logo", JVal.str "http://x/img.png")]

/-- A record without `mitra_logo`. -/
def missingLogoRecord : JVal :=
  JVal.obj [("id", JVal.num 4), ("status", JVal.str "ACTIVE"), ("nama_kegiatan", JVal.str "A"),
    ("mitra_brand_name", JVal.str "B")]

/-- The records the second status changes: id 1 first `ACTIVE`, then `ACCEPTED`. -/
def twoStatusRecords : List JVal :=
  [mkRecord 1 "ACTIVE" "A" "B" "http://x/img.png", mkRecord 1 "ACCEPTED" "A" "B" "http://x/img.png"]

/-- Three ticks: a failed fetch with a failed start-up delivery, then the worked
example fetched twice. -/
def threeTicks : List TickInput :=
  [⟨false, Fetched.failed, false⟩, ⟨true, Fetched.body (mkPayload [activeRecord]), true⟩,
    ⟨true, Fetched.body (mkPayload [activeRecord]), false⟩]

/-- Records of a payload that share an id and are not `PROCESSED` carry the same
status (so in particular when no id occurs twice). -/
def statusesAgree (ds : List JVal) : Prop :=
  ∀ r1 ∈ ds, ∀ r2 ∈ ds, recId r1 ≠ none → recId r1 = recId r2 →
    recStatus r1 ≠ some "PROCESSED" → recStatus r2 ≠ some "PROCESSED" →
    recStatus r1 = recStatus r2

instance statusesAgreeDecidable (ds : List JVal) : Decidable (statusesAgree ds) := by
  unfold statusesAgree
  infer_instance

/-! ## Strings -/

theorem append_ne_self (s t : String) (ht : 0 < t.length) : s ++ t ≠ s := by
  intro h
  have hlen := congrArg String.length h
  rw [String.length_append] at hlen
  omega

theorem blockText_obj_length (badVerb : JVal → String) (act : List (String × JVal)) :
    0 < (blockText badVerb (JVal.obj act)).length := by
  simp only [blockText, String.length_append]
  have h14 : ("**Activity:** " : String).length = 14 := by decide
  omega

/-! ## The record accessors -/

theorem recId_some {r : JVal} {id : Int} (h : recId r = some id) :
    ∃ act f, r = JVal.obj act ∧ index act "id" = JVal.num f ∧ f64ToInt f = id := by
  unfold recId at h
  split at h
  · rename_i act
    split at h
    · rename_i f hf
      exact ⟨act, f, rfl, hf, Option.some.inj h⟩
    · exact absurd h (by simp)
  · exact absurd h (by simp)

theorem recStatus_some {r : JVal} {s : String} (h : recStatus r = some s) :
    ∃ act, r = JVal.obj act ∧ index act "status" = JVal.str s := by
  unfold recStatus at h
  split at h
  · rename_i act
    split at h
    · rename_i s1 hs
      exact ⟨act, rfl, by rw [hs, Option.some.inj h]⟩
    · exact absurd h (by simp)
  · exact absurd h (by simp)

theorem recLogo_obj (act : List (String × JVal)) :
    recLogo (JVal.obj act) =
      match index act "mitra_logo" with
      | JVal.str url => some url
      | _ => none := rfl

/-! ## One iteration of the loop -/

/-- The loop body on a record whose `id` is a number and whose `status` is a string. -/
theorem processActivity_of_rec (badVerb : JVal → String) (st : Acc) {r : JVal} {id : Int}
    {s : String} (hid : recId r = some id) (hs : recStatus r = some s) :
    processActivity badVerb st r =
      if s = "PROCESSED" then some st
      else if st.lastResponse id = some s then some st
      else (recLogo r).map
        (fun url => ⟨st.message ++ blockText badVerb r, url, setStatus st.lastResponse id s⟩) := by
  obtain ⟨act, f, rfl, hf, rfl⟩ := recId_some hid
  obtain ⟨act1, hact, hst⟩ := recStatus_some hs
  cases hact
  simp only [processActivity, hf, hst]
  by_cases hp : s = "PROCESSED"
  · simp [hp]
  · simp only [hp, if_false]
    cases hm : st.lastResponse (f64ToInt f) with
    | none =>
      simp only [if_true, recLogo_obj, reduceCtorEq, if_false]
      cases index act "mitra_logo" <;>
        simp [blockText, recStatus, hst, String.append_assoc]
    | some last =>
      by_cases hl : last = s
      · simp [hl]
      · have hl1 : ¬ (some last = some s) := fun h => hl (Option.some.inj h)
        simp only [ne_eq, hl, not_false_eq_true, decide_True, if_true, hl1, if_false, recLogo_obj]
        cases index act "mitra_logo" <;>
          simp [blockText, recStatus, hst, String.append_assoc]

/-- A record that is not an object is passed over (`continue` at line 98). -/
theorem processActivity_not_obj (badVerb : JVal → String) (st : Acc) (r : JVal)
    (h : ∀ act, r ≠ JVal.obj act) : processActivity badVerb st r = some st := by
  cases r <;> first | rfl | exact absurd rfl (h _)

/-- What an iteration that does not panic can do: nothing, or emit the block of a
record with number `id`, string `status` other than `PROCESSED` that differs from
the map, and string logo. -/
theorem processActivity_cases (badVerb : JVal → String) (st st1 : Acc) (r : JVal)
    (h : processActivity badVerb st r = some st1) :
    st1 = st ∨ ∃ id status url, recId r = some id ∧ recStatus r = some status ∧
      recLogo r = some url ∧ status ≠ "PROCESSED" ∧ st.lastResponse id ≠ some status ∧
      st1 = ⟨st.message ++ blockText badVerb r, url, setStatus st.lastResponse id status⟩ := by
  unfold processActivity at h
  split at h
  · rename_i act
    split at h
    · rename_i f hf
      simp only at h
      split at h
      · rename_i status hs
        split at h
        · left; exact (Option.some.inj h).symm
        · rename_i hne
          split at h
          · rename_i hch
            split at h
            · rename_i url hu
              right
              refine ⟨f64ToInt f, status, url, ?_, ?_, ?_, hne, ?_, ?_⟩
              · simp [recId, hf]
              · simp [recStatus, hs]
              · simp [recLogo, hu]
              · intro hm
                simp [hm] at hch
              · rw [← Option.some.inj h]
                simp [blockText, recStatus, hs, String.append_assoc]
            · exact absurd h (by simp)
          · left; exact (Option.some.inj h).symm
      · exact absurd h (by simp)
    · exact absurd h (by simp)
  · left; exact (Option.some.inj h).symm

/-- A record the loop body gets past without a panic is no object, or has a
number `id` and a string `status`. -/
theorem processActivity_header (badVerb : JVal → String) (st st1 : Acc) (r : JVal)
    (h : processActivity badVerb st r = some st1) :
    (∀ act, r ≠ JVal.obj act) ∨ ∃ id s, recId r = some id ∧ recStatus r = some s := by
  unfold processActivity at h
  split at h
  · rename_i act
    split at h
    · rename_i f hf
      simp only at h
      split at h
      · rename_i status hs
        right
        exact ⟨f64ToInt f, status, by simp [recId, hf], by simp [recStatus, hs]⟩
      · exact absurd h (by simp)
    · exact absurd h (by simp)
  · rename_i hno
    left
    intro act hr
    exact hno act hr

theorem emit_message_ne (badVerb : JVal → String) (st : Acc) (r : JVal) (id : Int)
    (h : recId r = some id) : st.message ++ blockText badVerb r ≠ st.message := by
  obtain ⟨act, f, rfl, -, -⟩ := recId_some h
  exact append_ne_self _ _ (blockText_obj_length badVerb act)

/-! ## The loop -/

theorem formatLoop_cons (badVerb : JVal → String) (st st' : Acc) (r : JVal) (rest : List JVal)
    (h : formatLoop badVerb st (r :: rest) = some st') :
    ∃ st1, processActivity badVerb st r = some st1 ∧ formatLoop badVerb st1 rest = some st' := by
  simp only [formatLoop] at h
  cases hp : processActivity badVerb st r with
  | none => rw [hp] at h; exact absurd h (by simp)
  | some st1 => rw [hp] at h; exact ⟨st1, rfl, h⟩

theorem blocksEmitted_cons_same (badVerb : JVal → String) (st : Acc) (r : JVal)
    (rest : List JVal) (h : processActivity badVerb st r = some st) :
    blocksEmitted badVerb st (r :: rest) = blocksEmitted badVerb st rest := by
  simp [blocksEmitted, h]

theorem blocksEmitted_cons_emit (badVerb : JVal → String) (st st1 : Acc) (r : JVal)
    (rest : List JVal) (h : processActivity badVerb st r = some st1)
    (hne : st1.message ≠ st.message) :
    blocksEmitted badVerb st (r :: rest) = r :: blocksEmitted badVerb st1 rest := by
  simp [blocksEmitted, h, hne]

/-- Every record with an emitted block belongs to the payload, has a number `id`,
a string logo and a string status other than `PROCESSED`. -/
theorem blocksEmitted_mem (badVerb : JVal → String) :
    ∀ (ds : List JVal) (st : Acc) (r : JVal), r ∈ blocksEmitted badVerb st ds →
      r ∈ ds ∧ ∃ id s url, recId r = some id ∧ recStatus r = some s ∧
        recLogo r = some url ∧ s ≠ "PROCESSED" := by
  intro ds
  induction ds with
  | nil => intro st r h; simp [blocksEmitted] at h
  | cons d rest ih =>
    intro st r h
    cases hp : processActivity badVerb st d with
    | none => simp [blocksEmitted, hp] at h
    | some st1 =>
      rcases processActivity_cases badVerb st st1 d hp with hsame | ⟨id, s, url, hid, hs, hu, hne, -, hst1⟩
      · subst hsame
        rw [blocksEmitted_cons_same badVerb st1 d rest hp] at h
        obtain ⟨hmem, hrest⟩ := ih st1 r h
        exact ⟨List.mem_cons_of_mem _ hmem, hrest⟩
      · have hmsg : st1.message ≠ st.message := by
          rw [hst1]; exact emit_message_ne badVerb st d id hid
        rw [blocksEmitted_cons_emit badVerb st st1 d rest hp hmsg] at h
        rcases List.mem_cons.mp h with hrd | hr
        · subst hrd
          exact ⟨List.mem_cons_self _ _, id, s, url, hid, hs, hu, hne⟩
        · obtain ⟨hmem, hrest⟩ := ih st1 r hr
          exact ⟨List.mem_cons_of_mem _ hmem, hrest⟩

/-- The state the loop ends in, read off the records with an emitted block. -/
theorem formatLoop_spec (badVerb : JVal → String) :
    ∀ (ds : List JVal) (st st' : Acc), formatLoop badVerb st ds = some st' →
      st'.message = st.message ++ concatBlocks badVerb (blocksEmitted badVerb st ds) ∧
      (∀ r, (blocksEmitted badVerb st ds).getLast? = some r → recLogo r = some st'.imageURL) ∧
      (blocksEmitted badVerb st ds = [] → st' = st) ∧
      (∀ i, st'.lastResponse i = st.lastResponse i ∨
        ∃ r ∈ blocksEmitted badVerb st ds, recId r = some i ∧ recStatus r = st'.lastResponse i) := by
  intro ds
  induction ds with
  | nil =>
    intro st st' h
    simp only [formatLoop] at h
    cases Option.some.inj h
    refine ⟨by simp [blocksEmitted, concatBlocks], ?_, fun _ => rfl, fun i => Or.inl rfl⟩
    intro r hr
    simp [blocksEmitted] at hr
  | cons d rest ih =>
    intro st st' h
    obtain ⟨st1, hp, hrest⟩ := formatLoop_cons badVerb st st' d rest h
    obtain ⟨hmsg, hlast, hnil, hmap⟩ := ih st1 st' hrest
    rcases processActivity_cases badVerb st st1 d hp with hsame | ⟨id, s, url, hid, hs, hu, -, -, hst1⟩
    · subst hsame
      rw [blocksEmitted_cons_same badVerb st1 d rest hp]
      exact ⟨hmsg, hlast, hnil, hmap⟩
    · have hne : st1.message ≠ st.message := by
        rw [hst1]; exact emit_message_ne badVerb st d id hid
      rw [blocksEmitted_cons_emit badVerb st st1 d rest hp hne]
      refine ⟨?_, ?_, fun hcontra => absurd hcontra (by simp), ?_⟩
      · rw [hmsg, hst1]
        simp [concatBlocks, String.append_assoc]
      · intro r hr
        cases hem : blocksEmitted badVerb st1 rest with
        | nil =>
          rw [hem] at hr
          simp only [List.getLast?_singleton] at hr
          cases Option.some.inj hr
          rw [hnil hem, hst1]
          exact hu
        | cons e es =>
          rw [hem, List.getLast?_cons_cons] at hr
          rw [hem] at hlast
          exact hlast r hr
      · intro i
        rcases hmap i with hkeep | ⟨r, hr, hri, hrs⟩
        · by_cases hi : i = id
          · right
            refine ⟨d, List.mem_cons_self _ _, by rw [hi]; exact hid, ?_⟩
            rw [hkeep, hst1, hs]
            simp [setStatus, hi]
          · left
            rw [hkeep, hst1]
            simp [setStatus, hi]
        · right
          exact ⟨r, List.mem_cons_of_mem _ hr, hri, hrs⟩

/-- The loop does not panic on well-formed records. -/
theorem formatLoop_wellFormed (badVerb : JVal → String) :
    ∀ (ds : List JVal) (st : Acc), (∀ r ∈ ds, wellFormed r = true) →
      ∃ st', formatLoop badVerb st ds = some st' := by
  intro ds
  induction ds with
  | nil => intro st _; exact ⟨st, rfl⟩
  | cons d rest ih =>
    intro st hwf
    have hd := hwf d (List.mem_cons_self _ _)
    simp only [wellFormed, Bool.and_eq_true, Option.isSome_iff_exists] at hd
    obtain ⟨⟨⟨id, hid⟩, ⟨s, hs⟩⟩, ⟨url, hu⟩⟩ := hd
    have hstep : ∃ st1, processActivity badVerb st d = some st1 := by
      rw [processActivity_of_rec badVerb st hid hs, hu]
      by_cases hp : s = "PROCESSED"
      · exact ⟨st, by simp [hp]⟩
      · by_cases hm : st.lastResponse id = some s
        · exact ⟨st, by simp [hp, hm]⟩
        · exact ⟨⟨st.message ++ blockText badVerb d, url, setStatus st.lastResponse id s⟩,
            by simp only [hp, hm, if_false, Option.map_some']⟩
    obtain ⟨st1, hst1⟩ := hstep
    obtain ⟨st', hst'⟩ := ih st1 (fun r hr => hwf r (List.mem_cons_of_mem _ hr))
    exact ⟨st', by simp only [formatLoop, hst1, hst']⟩

/-! ## The whole call -/

theorem activitiesOf_some {data : Option JVal} {ds : List JVal} (h : activitiesOf data = some ds) :
    ∃ fields, data = some (JVal.obj fields) ∧ index fields "data" = JVal.arr ds := by
  unfold activitiesOf at h
  split at h
  · rename_i fields
    split at h
    · rename_i acts hacts
      exact ⟨fields, rfl, by rw [hacts, Option.some.inj h]⟩
    · exact absurd h (by simp)
  · exact absurd h (by simp)

theorem activitiesOf_mkPayload (ds : List JVal) : activitiesOf (mkPayload ds) = some ds := by
  simp [activitiesOf, mkPayload, index, lookup]

/-- Past lines 84-92 the call is the loop, started on empty `message` and `imageURL`. -/
theorem formatNotification_of_activities (badVerb : JVal → String) {data : Option JVal}
    {ds : List JVal} (m : StatusMap) (h : activitiesOf data = some ds) :
    formatNotification badVerb data m =
      (formatLoop badVerb (startAcc m) ds).map
        (fun st => ⟨st.message, st.imageURL, none, st.lastResponse⟩) := by
  obtain ⟨fields, rfl, hidx⟩ := activitiesOf_some h
  simp only [formatNotification, hidx]
  cases formatLoop badVerb (startAcc m) ds <;> rfl

/-- When lines 84-92 fail the call returns an error, empty strings, and the map as it was. -/
theorem formatNotification_of_no_activities (badVerb : JVal → String) {data : Option JVal}
    (m : StatusMap) (h : activitiesOf data = none) :
    ∃ e, formatNotification badVerb data m = some ⟨"", "", some e, m⟩ := by
  cases data with
  | none => exact ⟨_, rfl⟩
  | some v =>
    cases v with
    | obj fields =>
      simp only [activitiesOf] at h
      simp only [formatNotification]
      cases hidx : index fields "data" with
      | arr acts => rw [hidx] at h; exact absurd h (by simp)
      | null => exact ⟨_, rfl⟩
      | bool b => exact ⟨_, rfl⟩
      | num f => exact ⟨_, rfl⟩
      | str s => exact ⟨_, rfl⟩
      | obj fs => exact ⟨_, rfl⟩
    | null => exact ⟨_, rfl⟩
    | bool b => exact ⟨_, rfl⟩
    | num f => exact ⟨_, rfl⟩
    | str s => exact ⟨_, rfl⟩
    | arr xs => exact ⟨_, rfl⟩

/-- Dropping the `PROCESSED` records of a payload does not change what the loop does. -/
theorem formatLoop_filter_processed (badVerb : JVal → String) :
    ∀ (ds : List JVal) (st : Acc),
      (∀ r ∈ ds, recStatus r = some "PROCESSED" → ∃ id, recId r = some id) →
      formatLoop badVerb st (ds.filter (fun r => decide (recStatus r ≠ some "PROCESSED"))) =
        formatLoop badVerb st ds := by
  intro ds
  induction ds with
  | nil => intro st _; rfl
  | cons d rest ih =>
    intro st hid
    have hrest : ∀ r ∈ rest, recStatus r = some "PROCESSED" → ∃ id, recId r = some id :=
      fun r hr => hid r (List.mem_cons_of_mem _ hr)
    by_cases hp : recStatus d = some "PROCESSED"
    · obtain ⟨id, hdid⟩ := hid d (List.mem_cons_self _ _) hp
      have hstep : processActivity badVerb st d = some st := by
        rw [processActivity_of_rec badVerb st hdid hp]; simp
      simp only [List.filter, hp, ne_eq, not_true_eq_false, decide_False, formatLoop, hstep]
      exact ih st hrest
    · simp only [List.filter, hp, ne_eq, not_false_eq_true, decide_True, formatLoop]
      cases processActivity badVerb st d with
      | none => rfl
      | some st1 => exact ih st1 hrest

/-- A loop over records that all agree with the map changes nothing. -/
theorem formatLoop_quiet (badVerb : JVal → String) :
    ∀ (ds : List JVal) (st : Acc),
      (∀ r ∈ ds, (∀ act, r ≠ JVal.obj act) ∨ ∃ id s, recId r = some id ∧ recStatus r = some s ∧
        (s ≠ "PROCESSED" → st.lastResponse id = some s)) →
      formatLoop badVerb st ds = some st := by
  intro ds
  induction ds with
  | nil => intro st _; rfl
  | cons d rest ih =>
    intro st h
    have hstep : processActivity badVerb st d = some st := by
      rcases h d (List.mem_cons_self _ _) with hno | ⟨id, s, hid, hs, hm⟩
      · exact processActivity_not_obj badVerb st d hno
      · rw [processActivity_of_rec badVerb st hid hs]
        by_cases hp : s = "PROCESSED"
        · simp [hp]
        · simp [hp, hm hp]
    simp only [formatLoop, hstep]
    exact ih st (fun r hr => h r (List.mem_cons_of_mem _ hr))

/-! ## PROCESSED records (C1) -/

/-- C1: on a payload whose `data` is a sequence of well-formed records, the loop
body leaves message, image URL and status map exactly as they were on every record
whose status is `PROCESSED`; the call returns without error, its message is the
concatenation of the blocks of the records a block was emitted for, none of which
has status `PROCESSED`; and the call returns the same results and the same map as on
the payload with the `PROCESSED` records removed. -/
theorem processed_records_never_reported (badVerb : JVal → String) (data : Option JVal)
    (ds : List JVal) (m : StatusMap) (hdata : activitiesOf data = some ds)
    (hwf : ∀ r ∈ ds, wellFormed r = true) :
    (∀ r ∈ ds, recStatus r = some "PROCESSED" →
      ∀ st : Acc, processActivity badVerb st r = some st) ∧
    ∃ ret, formatNotification badVerb data m = some ret ∧ ret.err = none ∧
      ret.message = concatBlocks badVerb (blocksEmitted badVerb (startAcc m) ds) ∧
      (∀ r ∈ blocksEmitted badVerb (startAcc m) ds, recStatus r ≠ some "PROCESSED") ∧
      formatNotification badVerb
        (mkPayload (ds.filter (fun r => decide (recStatus r ≠ some "PROCESSED")))) m = some ret := by
  have hids : ∀ r ∈ ds, ∃ id, recId r = some id := by
    intro r hr
    have h := hwf r hr
    simp only [wellFormed, Bool.and_eq_true, Option.isSome_iff_exists] at h
    exact h.1.1
  refine ⟨?_, ?_⟩
  · intro r hr hp st
    obtain ⟨id, hid⟩ := hids r hr
    rw [processActivity_of_rec badVerb st hid hp]
    simp
  · obtain ⟨st', hloop⟩ := formatLoop_wellFormed badVerb ds (startAcc m) hwf
    obtain ⟨hmsg, -, -, -⟩ := formatLoop_spec badVerb ds (startAcc m) st' hloop
    refine ⟨⟨st'.message, st'.imageURL, none, st'.lastResponse⟩, ?_, rfl, ?_, ?_, ?_⟩
    · rw [formatNotification_of_activities badVerb m hdata, hloop]; rfl
    · rw [hmsg]; simp [startAcc]
    · intro r hr hp
      obtain ⟨-, id, s, url, -, hs, -, hne⟩ := blocksEmitted_mem badVerb ds (startAcc m) r hr
      rw [hs] at hp
      exact hne (Option.some.inj hp)
    · rw [formatNotification_of_activities badVerb m (activitiesOf_mkPayload _),
        formatLoop_filter_processed badVerb ds (startAcc m) (fun r hr _ => hids r hr), hloop]
      rfl

/-- C1 at a concrete input: a `PROCESSED` record followed by an `ACTIVE` one, empty map. -/
theorem processed_records_never_reported_witness :
    (activitiesOf (mkPayload [processedRecord, activeRecord]) = some [processedRecord, activeRecord] ∧
      ∀ r ∈ [processedRecord, activeRecord], wellFormed r = true) ∧
    ((∀ r ∈ [processedRecord, activeRecord], recStatus r = some "PROCESSED" →
      ∀ st : Acc, processActivity plainVerb st r = some st) ∧
    ∃ ret, formatNotification plainVerb (mkPayload [processedRecord, activeRecord]) emptyMap = some ret ∧
      ret.err = none ∧
      ret.message = concatBlocks plainVerb
        (blocksEmitted plainVerb (startAcc emptyMap) [processedRecord, activeRecord]) ∧
      (∀ r ∈ blocksEmitted plainVerb (startAcc emptyMap) [processedRecord, activeRecord],
        recStatus r ≠ some "PROCESSED") ∧
      formatNotification plainVerb
        (mkPayload ([processedRecord, activeRecord].filter
          (fun r => decide (recStatus r ≠ some "PROCESSED")))) emptyMap = some ret) :=
  ⟨⟨rfl, by decide⟩,
    processed_records_never_reported plainVerb (mkPayload [processedRecord, activeRecord])
      [processedRecord, activeRecord] emptyMap rfl (by decide)⟩

/-! ## Statuses already recorded (C3) -/

/-- C3: when every record of the payload has a number `id` and a string `status`
and the map already holds that status for that id, the call returns the empty
message (and empty image URL, no error) and leaves the map as it was. -/
theorem unchanged_statuses_stay_silent (badVerb : JVal → String) (data : Option JVal)
    (ds : List JVal) (m : StatusMap) (hdata : activitiesOf data = some ds)
    (hsame : ∀ r ∈ ds, ∃ id s, recId r = some id ∧ recStatus r = some s ∧ m id = some s) :
    formatNotification badVerb data m = some ⟨"", "", none, m⟩ := by
  have hq : formatLoop badVerb (startAcc m) ds = some (startAcc m) := by
    apply formatLoop_quiet
    intro r hr
    obtain ⟨id, s, hid, hs, hm⟩ := hsame r hr
    exact Or.inr ⟨id, s, hid, hs, fun _ => hm⟩
  rw [formatNotification_of_activities badVerb m hdata, hq]
  rfl

/-- C3 at a concrete input: the worked example once the map holds `1 ↦ ACTIVE`. -/
theorem unchanged_statuses_stay_silent_witness :
    (activitiesOf (mkPayload [activeRecord]) = some [activeRecord] ∧
      ∀ r ∈ [activeRecord], ∃ id s, recId r = some id ∧ recStatus r = some s ∧
        setStatus emptyMap 1 "ACTIVE" id = some s) ∧
    formatNotification plainVerb (mkPayload [activeRecord]) (setStatus emptyMap 1 "ACTIVE") =
      some ⟨"", "", none, setStatus emptyMap 1 "ACTIVE"⟩ :=
  have hsame : ∀ r ∈ [activeRecord], ∃ id s, recId r = some id ∧ recStatus r = some s ∧
      setStatus emptyMap 1 "ACTIVE" id = some s := by
    intro r hr
    rw [List.mem_singleton] at hr
    subst hr
    exact ⟨1, "ACTIVE", by decide, by decide, by decide⟩
  ⟨⟨rfl, hsame⟩,
    unchanged_statuses_stay_silent plainVerb (mkPayload [activeRecord]) [activeRecord]
      (setStatus emptyMap 1 "ACTIVE") rfl hsame⟩

/-! ## Payloads that are rejected (C7) -/

/-- C7: when the body is not accepted by the decoder, or decodes to something
other than an object whose `data` member is an array (no object, `data` absent,
`data` of another type), the call returns an error together with the empty message
and the empty image URL; the map is as it was. -/
theorem rejected_payload_returns_error (badVerb : JVal → String) (data : Option JVal)
    (m : StatusMap)
    (h : ∀ fields ds, data = some (JVal.obj fields) → index fields "data" ≠ JVal.arr ds) :
    ∃ e, formatNotification badVerb data m = some ⟨"", "", some e, m⟩ := by
  apply formatNotification_of_no_activities
  cases hact : activitiesOf data with
  | none => rfl
  | some ds =>
    obtain ⟨fields, hd, hidx⟩ := activitiesOf_some hact
    exact absurd hidx (h fields ds hd)

/-- C7 at a concrete input: an object whose `data` member is a string. -/
theorem rejected_payload_returns_error_witness :
    (∀ fields ds, some (JVal.obj [("data", JVal.str "maintenance")]) = some (JVal.obj fields) →
      index fields "data" ≠ JVal.arr ds) ∧
    ∃ e, formatNotification plainVerb (some (JVal.obj [("data", JVal.str "maintenance")])) emptyMap =
      some ⟨"", "", some e, emptyMap⟩ :=
  have hno : ∀ fields ds, some (JVal.obj [("data", JVal.str "maintenance")]) = some (JVal.obj fields) →
      index fields "data" ≠ JVal.arr ds := by
    intro fields ds hd hidx
    cases hd
    simp [index, lookup] at hidx
  ⟨hno, rejected_payload_returns_error plainVerb _ emptyMap hno⟩

/-! ## The map changes only with a block (C9) -/

theorem payloadRecords_of_activities {data : Option JVal} {ds : List JVal}
    (h : activitiesOf data = some ds) : payloadRecords data = ds := by
  simp [payloadRecords, h]

/-- C9: for every call that returns, every id whose map entry differs from the
entry before the call has a block emitted for it in this call, by a record of that id
whose status is the new entry; ids that no record of the payload carries keep their
entry; and a call that returns an error leaves the whole map as it was. -/
theorem map_changes_only_with_a_block (badVerb : JVal → String) (data : Option JVal)
    (m : StatusMap) (ret : Ret) (h : formatNotification badVerb data m = some ret) :
    (∀ i, ret.lastResponse i ≠ m i →
      ∃ r ∈ blocksEmitted badVerb (startAcc m) (payloadRecords data),
        recId r = some i ∧ recStatus r = ret.lastResponse i) ∧
    (∀ i, (∀ r ∈ payloadRecords data, recId r ≠ some i) → ret.lastResponse i = m i) ∧
    (ret.err ≠ none → ret.lastResponse = m) := by
  cases hact : activitiesOf data with
  | none =>
    obtain ⟨e, he⟩ := formatNotification_of_no_activities badVerb m hact
    rw [he] at h
    cases Option.some.inj h
    exact ⟨fun i hi => absurd rfl hi, fun _ _ => rfl, fun _ => rfl⟩
  | some ds =>
    rw [formatNotification_of_activities badVerb m hact] at h
    rw [payloadRecords_of_activities hact]
    cases hloop : formatLoop badVerb (startAcc m) ds with
    | none => rw [hloop] at h; exact absurd h (by simp)
    | some st' =>
      rw [hloop] at h
      cases Option.some.inj h
      obtain ⟨-, -, -, hmap⟩ := formatLoop_spec badVerb ds (startAcc m) st' hloop
      refine ⟨?_, ?_, fun herr => absurd rfl herr⟩
      · intro i hi
        rcases hmap i with hkeep | hex
        · exact absurd hkeep hi
        · exact hex
      · intro i hno
        rcases hmap i with hkeep | ⟨r, hr, hri, -⟩
        · exact hkeep
        · exact absurd hri (hno r (blocksEmitted_mem badVerb ds (startAcc m) r hr).1)

/-- C9 at a concrete input: the worked example on the empty map. -/
theorem map_changes_only_with_a_block_witness :
    ∃ ret, formatNotification plainVerb (mkPayload [activeRecord]) emptyMap = some ret ∧
      ret.lastResponse 1 = some "ACTIVE" ∧
      (∀ i, ret.lastResponse i ≠ emptyMap i →
        ∃ r ∈ blocksEmitted plainVerb (startAcc emptyMap) (payloadRecords (mkPayload [activeRecord])),
          recId r = some i ∧ recStatus r = ret.lastResponse i) ∧
      (∀ i, (∀ r ∈ payloadRecords (mkPayload [activeRecord]), recId r ≠ some i) →
        ret.lastResponse i = emptyMap i) ∧
      (ret.err ≠ none → ret.lastResponse = emptyMap) :=
  ⟨⟨"**Activity:** A\n**Partner:** B\n**Status:** ACTIVE\n", "http://x/img.png", none,
      setStatus emptyMap 1 "ACTIVE"⟩, rfl, by decide,
    map_changes_only_with_a_block plainVerb (mkPayload [activeRecord]) emptyMap _ rfl⟩

/-! ## The image URL (C8) -/

theorem concatBlocks_cons_length (badVerb : JVal → String) (e : JVal) (es : List JVal) (id : Int)
    (h : recId e = some id) : 0 < (concatBlocks badVerb (e :: es)).length := by
  obtain ⟨act, f, rfl, -, -⟩ := recId_some h
  have hb := blockText_obj_length badVerb act
  simp only [concatBlocks, String.length_append]
  omega

/-- The message is empty exactly when no block was emitted. -/
theorem blocksEmitted_nil_iff (badVerb : JVal → String) (ds : List JVal) (m : StatusMap)
    (st' : Acc) (hloop : formatLoop badVerb (startAcc m) ds = some st') :
    blocksEmitted badVerb (startAcc m) ds = [] ↔ st'.message = "" := by
  obtain ⟨hmsg, -, hnil, -⟩ := formatLoop_spec badVerb ds (startAcc m) st' hloop
  constructor
  · intro hem
    rw [hnil hem]
    rfl
  · intro hempty
    cases hem : blocksEmitted badVerb (startAcc m) ds with
    | nil => rfl
    | cons e es =>
      exfalso
      have he : e ∈ blocksEmitted badVerb (startAcc m) ds := by rw [hem]; exact List.mem_cons_self _ _
      obtain ⟨-, id, -, -, hid, -, -, -⟩ := blocksEmitted_mem badVerb ds (startAcc m) e he
      have hlen := concatBlocks_cons_length badVerb e es id hid
      rw [hem] at hmsg
      have hl := congrArg String.length hmsg
      rw [hempty, String.length_append] at hl
      simp only [String.length_empty] at hl
      omega

/-- C8 (amended): on a payload of well-formed records the call returns without
error; the image URL is the logo URL of the last record, in payload order, for which
a block was emitted; no block was emitted exactly when the message is empty, and then
the image URL is empty; the image URL is empty only then or when the logo URL of that
last record is itself the empty string. -/
theorem image_is_logo_of_last_block (badVerb : JVal → String) (data : Option JVal)
    (ds : List JVal) (m : StatusMap) (hdata : activitiesOf data = some ds)
    (hwf : ∀ r ∈ ds, wellFormed r = true) :
    ∃ ret, formatNotification badVerb data m = some ret ∧ ret.err = none ∧
      (∀ r, (blocksEmitted badVerb (startAcc m) ds).getLast? = some r →
        recLogo r = some ret.imageURL) ∧
      (blocksEmitted badVerb (startAcc m) ds = [] ↔ ret.message = "") ∧
      (blocksEmitted badVerb (startAcc m) ds = [] → ret.imageURL = "") ∧
      (ret.imageURL = "" ↔ (blocksEmitted badVerb (startAcc m) ds = [] ∨
        ∃ r, (blocksEmitted badVerb (startAcc m) ds).getLast? = some r ∧ recLogo r = some "")) := by
  obtain ⟨st', hloop⟩ := formatLoop_wellFormed badVerb ds (startAcc m) hwf
  obtain ⟨-, hlast, hnil, -⟩ := formatLoop_spec badVerb ds (startAcc m) st' hloop
  have hurl : blocksEmitted badVerb (startAcc m) ds = [] → st'.imageURL = "" := by
    intro hem; rw [hnil hem]; rfl
  refine ⟨⟨st'.message, st'.imageURL, none, st'.lastResponse⟩, ?_, rfl, hlast,
    blocksEmitted_nil_iff badVerb ds m st' hloop, hurl, ?_⟩
  · rw [formatNotification_of_activities badVerb m hdata, hloop]; rfl
  · constructor
    · intro himg
      cases hg : (blocksEmitted badVerb (startAcc m) ds).getLast? with
      | none => exact Or.inl (List.getLast?_eq_none_iff.mp hg)
      | some r =>
        right
        refine ⟨r, rfl, ?_⟩
        have := hlast r hg
        simp only at himg
        rw [this, himg]
    · rintro (hem | ⟨r, hr, hlogo⟩)
      · exact hurl hem
      · have := hlast r hr
        rw [hlogo] at this
        exact (Option.some.inj this).symm

/-- C8 (amended) at a concrete input: a `PROCESSED` record followed by an `ACTIVE`
one, empty map. -/
theorem image_is_logo_of_last_block_witness :
    (activitiesOf (mkPayload [processedRecord, activeRecord]) = some [processedRecord, activeRecord] ∧
      ∀ r ∈ [processedRecord, activeRecord], wellFormed r = true) ∧
    ∃ ret, formatNotification plainVerb (mkPayload [processedRecord, activeRecord]) emptyMap = some ret ∧
      ret.err = none ∧
      (∀ r, (blocksEmitted plainVerb (startAcc emptyMap) [processedRecord, activeRecord]).getLast? = some r →
        recLogo r = some ret.imageURL) ∧
      (blocksEmitted plainVerb (startAcc emptyMap) [processedRecord, activeRecord] = [] ↔ ret.message = "") ∧
      (blocksEmitted plainVerb (startAcc emptyMap) [processedRecord, activeRecord] = [] → ret.imageURL = "") ∧
      (ret.imageURL = "" ↔ (blocksEmitted plainVerb (startAcc emptyMap) [processedRecord, activeRecord] = [] ∨
        ∃ r, (blocksEmitted plainVerb (startAcc emptyMap) [processedRecord, activeRecord]).getLast? = some r ∧
          recLogo r = some "")) :=
  ⟨⟨rfl, by decide⟩,
    image_is_logo_of_last_block plainVerb (mkPayload [processedRecord, activeRecord])
      [processedRecord, activeRecord] emptyMap rfl (by decide)⟩

/-- C8 as stated fails: for a well-formed record whose logo URL is the empty string
a block is emitted (the message is not empty) and yet the image URL returned is the
empty string. -/
theorem empty_image_with_block_counterexample :
    wellFormed noLogoRecord = true ∧
    (blocksEmitted plainVerb (startAcc emptyMap) [noLogoRecord]).length = 1 ∧
    (formatNotification plainVerb (mkPayload [noLogoRecord]) emptyMap).map
        (fun ret => (ret.message, ret.imageURL, ret.err)) =
      some ("**Activity:** A\n**Partner:** B\n**Status:** ACTIVE\n", "", none) := by
  decide

/-! ## The worked example (C5) -/

/-- C5 (amended): on the payload of the worked example and the empty map the call
returns without error the message
`**Activity:** A\n**Partner:** B\n**Status:** ACTIVE\n`, which contains the lines
`**Activity:** A`, `**Partner:** B` and `**Status:** ACTIVE`, and the image URL
`http://x/img.png`; the map then holds `ACTIVE` for id 1. -/
theorem worked_example_result (badVerb : JVal → String) :
    ∃ ret, formatNotification badVerb (mkPayload [activeRecord]) emptyMap = some ret ∧
      ret.message = "**Activity:** A\n**Partner:** B\n**Status:** ACTIVE\n" ∧
      "**Activity:** A".data <:+: ret.message.data ∧
      "**Partner:** B".data <:+: ret.message.data ∧
      "**Status:** ACTIVE".data <:+: ret.message.data ∧
      ret.imageURL = "http://x/img.png" ∧ ret.err = none ∧
      ret.lastResponse 1 = some "ACTIVE" :=
  ⟨⟨"**Activity:** A\n**Partner:** B\n**Status:** ACTIVE\n", "http://x/img.png", none,
      setStatus emptyMap 1 "ACTIVE"⟩, rfl, rfl, by decide, by decide, by decide, rfl, rfl, by decide⟩

/-- C5 as stated fails: the message returned for the worked example contains none
of the substrings `Activity: A`, `Partner: B`, `Status: ACTIVE`, because each label
is followed by `**` before the blank. -/
theorem worked_example_plain_labels_counterexample :
    (formatNotification plainVerb (mkPayload [activeRecord]) emptyMap).map (fun ret => ret.message) =
      some "**Activity:** A\n**Partner:** B\n**Status:** ACTIVE\n" ∧
    ¬ ("Activity: A".data <:+: "**Activity:** A\n**Partner:** B\n**Status:** ACTIVE\n".data) ∧
    ¬ ("Partner: B".data <:+: "**Activity:** A\n**Partner:** B\n**Status:** ACTIVE\n".data) ∧
    ¬ ("Status: ACTIVE".data <:+: "**Activity:** A\n**Partner:** B\n**Status:** ACTIVE\n".data) := by
  decide

/-! ## Malformed records (C6) -/

/-- C6 on the code: a record that is no object is passed over, but a record
without `id`, with a `status` that is no string, or (when its block is due) without
`mitra_logo` makes the call panic, where the payload without that record returns the
block of the remaining record. -/
theorem malformed_record_panics (badVerb : JVal → String) :
    formatNotification badVerb (mkPayload [missingIdRecord, activeRecord]) emptyMap = none ∧
    formatNotification badVerb (mkPayload [numericStatusRecord, activeRecord]) emptyMap = none ∧
    formatNotification badVerb (mkPayload [missingLogoRecord, activeRecord]) emptyMap = none ∧
    formatNotification badVerb (mkPayload [JVal.str "x", activeRecord]) emptyMap =
      formatNotification badVerb (mkPayload [activeRecord]) emptyMap ∧
    formatNotification badVerb (mkPayload [activeRecord]) emptyMap =
      some ⟨"**Activity:** A\n**Partner:** B\n**Status:** ACTIVE\n", "http://x/img.png", none,
        setStatus emptyMap 1 "ACTIVE"⟩ :=
  ⟨rfl, rfl, rfl, rfl, rfl⟩

/-! ## A new id (C2) -/

/-- After an iteration that does not panic, the map holds the status of the
record just processed, unless that status is `PROCESSED`. -/
theorem processActivity_settles (badVerb : JVal → String) (st st1 : Acc) (d : JVal) (id : Int)
    (s : String) (hp : processActivity badVerb st d = some st1) (hid : recId d = some id)
    (hs : recStatus d = some s) (hne : s ≠ "PROCESSED") : st1.lastResponse id = some s := by
  rw [processActivity_of_rec badVerb st hid hs] at hp
  simp only [hne, if_false] at hp
  by_cases hm : st.lastResponse id = some s
  · simp only [hm, if_true] at hp
    cases Option.some.inj hp
    exact hm
  · simp only [hm, if_false] at hp
    cases hu : recLogo d with
    | none => rw [hu] at hp; exact absurd hp (by simp)
    | some url =>
      rw [hu] at hp
      cases Option.some.inj hp
      simp [setStatus]

/-- Once the map holds `s` for `id`, records of that id that are `PROCESSED` or
carry `s` emit no block and leave the entry alone. -/
theorem formatLoop_settled (badVerb : JVal → String) (id : Int) (s : String) :
    ∀ (ds : List JVal) (st st' : Acc), formatLoop badVerb st ds = some st' →
      st.lastResponse id = some s →
      (∀ r ∈ ds, recId r = some id → recStatus r ≠ some "PROCESSED" → recStatus r = some s) →
      (blocksEmitted badVerb st ds).filter (fun r => decide (recId r = some id)) = [] ∧
        st'.lastResponse id = some s := by
  intro ds
  induction ds with
  | nil =>
    intro st st' h hm _
    simp only [formatLoop] at h
    cases Option.some.inj h
    exact ⟨by simp [blocksEmitted], hm⟩
  | cons d rest ih =>
    intro st st' h hm hsame
    obtain ⟨st1, hp, hrest⟩ := formatLoop_cons badVerb st st' d rest h
    have hsame1 : ∀ r ∈ rest, recId r = some id → recStatus r ≠ some "PROCESSED" →
        recStatus r = some s := fun r hr => hsame r (List.mem_cons_of_mem _ hr)
    rcases processActivity_cases badVerb st st1 d hp with heq | ⟨id1, s1, url, hid, hs, -, hne, hdiff, hst1⟩
    · subst heq
      rw [blocksEmitted_cons_same badVerb st1 d rest hp]
      exact ih st1 st' hrest hm hsame1
    · have hmsg : st1.message ≠ st.message := by
        rw [hst1]; exact emit_message_ne badVerb st d id1 hid
      have hidne : id1 ≠ id := by
        intro hi
        subst hi
        have := hsame d (List.mem_cons_self _ _) hid (by rw [hs]; simpa using hne)
        rw [hs] at this
        rw [hm] at hdiff
        exact hdiff this.symm
      have hm1 : st1.lastResponse id = some s := by
        rw [hst1]
        simp only [setStatus]
        rw [if_neg (fun h => hidne h.symm)]
        exact hm
      rw [blocksEmitted_cons_emit badVerb st st1 d rest hp hmsg]
      have hdrop : decide (recId d = some id) = false := by
        rw [hid]; simp [hidne]
      rw [List.filter_cons_of_neg (by simp [hdrop])]
      exact ih st1 st' hrest hm1 hsame1

/-- While the map does not hold `s` for `id`, the first record of that id with
status `s` gets the one block emitted for that id. -/
theorem formatLoop_first_block (badVerb : JVal → String) (id : Int) (s : String)
    (hs : s ≠ "PROCESSED") :
    ∀ (ds : List JVal) (st st' : Acc), formatLoop badVerb st ds = some st' →
      st.lastResponse id ≠ some s →
      (∃ r ∈ ds, recId r = some id ∧ recStatus r = some s) →
      (∀ r ∈ ds, recId r = some id → recStatus r ≠ some "PROCESSED" → recStatus r = some s) →
      ∃ e, (blocksEmitted badVerb st ds).filter (fun r => decide (recId r = some id)) = [e] ∧
        e ∈ ds ∧ recStatus e = some s ∧ st'.lastResponse id = some s := by
  intro ds
  induction ds with
  | nil =>
    intro st st' _ _ hex _
    obtain ⟨r, hr, -⟩ := hex
    exact absurd hr (List.not_mem_nil r)
  | cons d rest ih =>
    intro st st' h hm hex hsame
    obtain ⟨st1, hp, hrest⟩ := formatLoop_cons badVerb st st' d rest h
    have hsame1 : ∀ r ∈ rest, recId r = some id → recStatus r ≠ some "PROCESSED" →
        recStatus r = some s := fun r hr => hsame r (List.mem_cons_of_mem _ hr)
    rcases processActivity_cases badVerb st st1 d hp with heq | ⟨id1, s1, url, hid, hs1, -, hne, -, hst1⟩
    · subst heq
      have hex1 : ∃ r ∈ rest, recId r = some id ∧ recStatus r = some s := by
        obtain ⟨r, hr, hrid, hrs⟩ := hex
        rcases List.mem_cons.mp hr with hrd | hr1
        · subst hrd
          have := processActivity_settles badVerb st1 st1 r id s hp hrid hrs hs
          exact absurd this hm
        · exact ⟨r, hr1, hrid, hrs⟩
      rw [blocksEmitted_cons_same badVerb st1 d rest hp]
      obtain ⟨e, hf, he, hes, hfin⟩ := ih st1 st' hrest hm hex1 hsame1
      exact ⟨e, hf, List.mem_cons_of_mem _ he, hes, hfin⟩
    · have hmsg : st1.message ≠ st.message := by
        rw [hst1]; exact emit_message_ne badVerb st d id1 hid
      rw [blocksEmitted_cons_emit badVerb st st1 d rest hp hmsg]
      by_cases hi : id1 = id
      · subst hi
        have hds : recStatus d = some s :=
          hsame d (List.mem_cons_self _ _) hid (by rw [hs1]; simpa using hne)
        have hm1 : st1.lastResponse id1 = some s :=
          processActivity_settles badVerb st st1 d id1 s hp hid hds hs
        obtain ⟨hnone, hfin⟩ := formatLoop_settled badVerb id1 s rest st1 st' hrest hm1 hsame1
        refine ⟨d, ?_, List.mem_cons_self _ _, hds, hfin⟩
        rw [List.filter_cons_of_pos (by simp [hid]), hnone]
      · have hm1 : st1.lastResponse id ≠ some s := by
          rw [hst1]
          simp only [setStatus]
          rw [if_neg (fun h => hi h.symm)]
          exact hm
        have hex1 : ∃ r ∈ rest, recId r = some id ∧ recStatus r = some s := by
          obtain ⟨r, hr, hrid, hrs⟩ := hex
          rcases List.mem_cons.mp hr with hrd | hr1
          · subst hrd
            rw [hid] at hrid
            exact absurd (Option.some.inj hrid) hi
          · exact ⟨r, hr1, hrid, hrs⟩
        obtain ⟨e, hf, he, hes, hfin⟩ := ih st1 st' hrest hm1 hex1 hsame1
        refine ⟨e, ?_, List.mem_cons_of_mem _ he, hes, hfin⟩
        rw [List.filter_cons_of_neg (by rw [hid]; simp [hi])]
        exact hf

/-- C2 (amended): for an id that is absent from the map and that a record of a
well-formed payload carries with a status `s` other than `PROCESSED`, provided every
record of that id in the payload is `PROCESSED` or carries `s` too (as when the id
occurs once): the call returns without error, its message is the concatenation of the
emitted blocks, exactly one of these blocks belongs to a record of that id, that record
has status `s`, and afterwards the map holds `s` for the id. -/
theorem new_id_gets_one_block (badVerb : JVal → String) (data : Option JVal) (ds : List JVal)
    (m : StatusMap) (id : Int) (s : String) (hdata : activitiesOf data = some ds)
    (hwf : ∀ r ∈ ds, wellFormed r = true) (habsent : m id = none)
    (hin : ∃ r ∈ ds, recId r = some id ∧ recStatus r = some s) (hs : s ≠ "PROCESSED")
    (hsame : ∀ r ∈ ds, recId r = some id → recStatus r ≠ some "PROCESSED" → recStatus r = some s) :
    ∃ ret, formatNotification badVerb data m = some ret ∧ ret.err = none ∧
      ret.message = concatBlocks badVerb (blocksEmitted badVerb (startAcc m) ds) ∧
      (∃ e, (blocksEmitted badVerb (startAcc m) ds).filter (fun r => decide (recId r = some id)) = [e] ∧
        e ∈ ds ∧ recStatus e = some s) ∧
      ret.lastResponse id = some s := by
  obtain ⟨st', hloop⟩ := formatLoop_wellFormed badVerb ds (startAcc m) hwf
  obtain ⟨hmsg, -, -, -⟩ := formatLoop_spec badVerb ds (startAcc m) st' hloop
  have hm : (startAcc m).lastResponse id ≠ some s := by
    simp [startAcc, habsent]
  obtain ⟨e, hf, he, hes, hfin⟩ :=
    formatLoop_first_block badVerb id s hs ds (startAcc m) st' hloop hm hin hsame
  refine ⟨⟨st'.message, st'.imageURL, none, st'.lastResponse⟩, ?_, rfl, ?_, ⟨e, hf, he, hes⟩, hfin⟩
  · rw [formatNotification_of_activities badVerb m hdata, hloop]; rfl
  · rw [hmsg]; simp [startAcc]

/-- C2 (amended) at a concrete input: the worked example on the empty map. -/
theorem new_id_gets_one_block_witness :
    (activitiesOf (mkPayload [processedRecord, activeRecord]) = some [processedRecord, activeRecord] ∧
      (∀ r ∈ [processedRecord, activeRecord], wellFormed r = true) ∧ emptyMap 1 = none ∧
      (∃ r ∈ [processedRecord, activeRecord], recId r = some 1 ∧ recStatus r = some "ACTIVE") ∧
      "ACTIVE" ≠ "PROCESSED" ∧
      (∀ r ∈ [processedRecord, activeRecord], recId r = some 1 → recStatus r ≠ some "PROCESSED" →
        recStatus r = some "ACTIVE")) ∧
    ∃ ret, formatNotification plainVerb (mkPayload [processedRecord, activeRecord]) emptyMap = some ret ∧
      ret.err = none ∧
      ret.message = concatBlocks plainVerb
        (blocksEmitted plainVerb (startAcc emptyMap) [processedRecord, activeRecord]) ∧
      (∃ e, (blocksEmitted plainVerb (startAcc emptyMap) [processedRecord, activeRecord]).filter
          (fun r => decide (recId r = some 1)) = [e] ∧
        e ∈ [processedRecord, activeRecord] ∧ recStatus e = some "ACTIVE") ∧
      ret.lastResponse 1 = some "ACTIVE" :=
  ⟨⟨rfl, by decide, rfl, by decide, by decide, by decide⟩,
    new_id_gets_one_block plainVerb (mkPayload [processedRecord, activeRecord])
      [processedRecord, activeRecord] emptyMap 1 "ACTIVE" rfl (by decide) rfl (by decide)
      (by decide) (by decide)⟩

/-- C2 as stated fails: id 1 is absent from the map and occurs in a payload of
well-formed records with status `ACTIVE`, yet two blocks are emitted for id 1 and
the map ends up holding `ACCEPTED`, because a second record of the same id carries
another status. -/
theorem repeated_id_two_blocks_counterexample :
    (∀ r ∈ twoStatusRecords, wellFormed r = true) ∧ emptyMap 1 = none ∧
    (∃ r ∈ twoStatusRecords, recId r = some 1 ∧ recStatus r = some "ACTIVE") ∧
    "ACTIVE" ≠ "PROCESSED" ∧
    ((blocksEmitted plainVerb (startAcc emptyMap) twoStatusRecords).filter
      (fun r => decide (recId r = some 1))).length = 2 ∧
    (formatNotification plainVerb (mkPayload twoStatusRecords) emptyMap).map
      (fun ret => ret.lastResponse 1) = some (some "ACCEPTED") := by
  decide

/-! ## A second call on the same payload (C4) -/

/-- The error of a rejected payload does not depend on the map. -/
theorem formatNotification_error_fixed (badVerb : JVal → String) {data : Option JVal}
    (h : activitiesOf data = none) :
    ∃ e, ∀ m : StatusMap, formatNotification badVerb data m = some ⟨"", "", some e, m⟩ := by
  cases data with
  | none => exact ⟨_, fun _ => rfl⟩
  | some v =>
    cases v with
    | obj fields =>
      simp only [activitiesOf] at h
      simp only [formatNotification]
      cases hidx : index fields "data" with
      | arr acts => rw [hidx] at h; exact absurd h (by simp)
      | null => exact ⟨_, fun _ => rfl⟩
      | bool b => exact ⟨_, fun _ => rfl⟩
      | num f => exact ⟨_, fun _ => rfl⟩
      | str s => exact ⟨_, fun _ => rfl⟩
      | obj fs => exact ⟨_, fun _ => rfl⟩
    | null => exact ⟨_, fun _ => rfl⟩
    | bool b => exact ⟨_, fun _ => rfl⟩
    | num f => exact ⟨_, fun _ => rfl⟩
    | str s => exact ⟨_, fun _ => rfl⟩
    | arr xs => exact ⟨_, fun _ => rfl⟩

/-- Every record of a loop that ran through is no object or has a number `id` and
a string `status`. -/
theorem formatLoop_headers (badVerb : JVal → String) :
    ∀ (ds : List JVal) (st st' : Acc), formatLoop badVerb st ds = some st' →
      ∀ r ∈ ds, (∀ act, r ≠ JVal.obj act) ∨ ∃ id s, recId r = some id ∧ recStatus r = some s := by
  intro ds
  induction ds with
  | nil => intro st st' _ r hr; exact absurd hr (List.not_mem_nil r)
  | cons d rest ih =>
    intro st st' h r hr
    obtain ⟨st1, hp, hrest⟩ := formatLoop_cons badVerb st st' d rest h
    rcases List.mem_cons.mp hr with hrd | hr1
    · subst hrd
      exact processActivity_header badVerb st st1 r hp
    · exact ih st1 st' hrest r hr1

theorem statusesAgree_tail {d : JVal} {rest : List JVal} (h : statusesAgree (d :: rest)) :
    statusesAgree rest :=
  fun r1 hr1 r2 hr2 => h r1 (List.mem_cons_of_mem _ hr1) r2 (List.mem_cons_of_mem _ hr2)

/-- After the loop the map holds, for every record that is not `PROCESSED`, the
status of that record, when the statuses of the payload agree. -/
theorem formatLoop_absorbs (badVerb : JVal → String) :
    ∀ (ds : List JVal) (st st' : Acc), formatLoop badVerb st ds = some st' → statusesAgree ds →
      ∀ r ∈ ds, ∀ id s, recId r = some id → recStatus r = some s → s ≠ "PROCESSED" →
        st'.lastResponse id = some s := by
  intro ds
  induction ds with
  | nil => intro st st' _ _ r hr; exact absurd hr (List.not_mem_nil r)
  | cons d rest ih =>
    intro st st' h hag r hr id s hid hs hne
    obtain ⟨st1, hp, hrest⟩ := formatLoop_cons badVerb st st' d rest h
    rcases List.mem_cons.mp hr with hrd | hr1
    · subst hrd
      have hm1 := processActivity_settles badVerb st st1 r id s hp hid hs hne
      obtain ⟨-, -, -, hmap⟩ := formatLoop_spec badVerb rest st1 st' hrest
      rcases hmap id with hkeep | ⟨e, he, heid, hes⟩
      · rw [hkeep]; exact hm1
      · obtain ⟨hemem, -, s2, -, -, hes2, -, hne2⟩ := blocksEmitted_mem badVerb rest st1 e he
        have hagree := hag r (List.mem_cons_self _ _) e (List.mem_cons_of_mem _ hemem)
          (by rw [hid]; simp) (by rw [hid, heid])
          (by rw [hs]; simpa using hne) (by rw [hes2]; simpa using hne2)
        rw [← hes, ← hagree, hs]
    · exact ih st1 st' hrest (statusesAgree_tail hag) r hr1 id s hid hs hne

/-- C4 (amended): when a call returns (it does not panic) and the records of the
payload that share an id and are not `PROCESSED` carry the same status, a second call
on the same payload, made on the map the first call left, returns the empty message and
the empty image URL, reports an error exactly as the first call did, and leaves the
map as the first call left it. -/
theorem second_call_is_silent (badVerb : JVal → String) (data : Option JVal) (m : StatusMap)
    (ret1 : Ret) (h1 : formatNotification badVerb data m = some ret1)
    (hagree : statusesAgree (payloadRecords data)) :
    formatNotification badVerb data ret1.lastResponse =
      some ⟨"", "", ret1.err, ret1.lastResponse⟩ := by
  cases hact : activitiesOf data with
  | none =>
    obtain ⟨e, he⟩ := formatNotification_error_fixed badVerb hact
    rw [he m] at h1
    cases Option.some.inj h1
    exact he m
  | some ds =>
    rw [payloadRecords_of_activities hact] at hagree
    rw [formatNotification_of_activities badVerb m hact] at h1
    cases hloop : formatLoop badVerb (startAcc m) ds with
    | none => rw [hloop] at h1; exact absurd h1 (by simp)
    | some st' =>
      rw [hloop] at h1
      cases Option.some.inj h1
      have hq : formatLoop badVerb (startAcc st'.lastResponse) ds = some (startAcc st'.lastResponse) := by
        apply formatLoop_quiet
        intro r hr
        rcases formatLoop_headers badVerb ds (startAcc m) st' hloop r hr with hno | ⟨id, s, hid, hs⟩
        · exact Or.inl hno
        · exact Or.inr ⟨id, s, hid, hs, fun hne =>
            formatLoop_absorbs badVerb ds (startAcc m) st' hloop hagree r hr id s hid hs hne⟩
      rw [formatNotification_of_activities badVerb _ hact, hq]
      rfl

/-- C4 (amended) at a concrete input: the worked example, first call on the empty map. -/
theorem second_call_is_silent_witness :
    (formatNotification plainVerb (mkPayload [activeRecord]) emptyMap =
        some ⟨"**Activity:** A\n**Partner:** B\n**Status:** ACTIVE\n", "http://x/img.png", none,
          setStatus emptyMap 1 "ACTIVE"⟩ ∧
      statusesAgree (payloadRecords (mkPayload [activeRecord]))) ∧
    formatNotification plainVerb (mkPayload [activeRecord]) (setStatus emptyMap 1 "ACTIVE") =
      some ⟨"", "", none, setStatus emptyMap 1 "ACTIVE"⟩ :=
  ⟨⟨rfl, by decide⟩,
    second_call_is_silent plainVerb (mkPayload [activeRecord]) emptyMap
      ⟨"**Activity:** A\n**Partner:** B\n**Status:** ACTIVE\n", "http://x/img.png", none,
        setStatus emptyMap 1 "ACTIVE"⟩ rfl (by decide)⟩

/-- C4 as stated fails: on a payload in which id 1 occurs with two statuses, the
first call on the empty map returns a non-empty message, and so does the second call
on the same payload, made on the map the first call left. -/
theorem second_call_not_silent_counterexample :
    (formatNotification plainVerb (mkPayload twoStatusRecords) emptyMap).map
        (fun ret => ret.message) =
      some ("**Activity:** A\n**Partner:** B\n**Status:** ACTIVE\n" ++
        "**Activity:** A\n**Partner:** B\n**Status:** ACCEPTED\n") ∧
    (formatNotification plainVerb (mkPayload twoStatusRecords) emptyMap).bind
        (fun ret1 => (formatNotification plainVerb (mkPayload twoStatusRecords) ret1.lastResponse).map
          (fun ret2 => ret2.message)) =
      some ("**Activity:** A\n**Partner:** B\n**Status:** ACTIVE\n" ++
        "**Activity:** A\n**Partner:** B\n**Status:** ACCEPTED\n") := by
  decide

/-! ## The start-up notification (C10) -/

theorem blockText_head (badVerb : JVal → String) (r : JVal) :
    blockText badVerb r = "" ∨ (blockText badVerb r).data.head? = some '*' := by
  cases r with
  | obj act =>
    right
    simp only [blockText, String.data_append]
    rfl
  | null => exact Or.inl rfl
  | bool b => exact Or.inl rfl
  | num f => exact Or.inl rfl
  | str s => exact Or.inl rfl
  | arr xs => exact Or.inl rfl

theorem concatBlocks_head (badVerb : JVal → String) :
    ∀ es : List JVal, concatBlocks badVerb es = "" ∨
      (concatBlocks badVerb es).data.head? = some '*' := by
  intro es
  induction es with
  | nil => exact Or.inl rfl
  | cons e es ih =>
    simp only [concatBlocks]
    rcases blockText_head badVerb e with hb | hb
    · rw [hb]
      simpa using ih
    · right
      rw [String.data_append]
      cases hd : (blockText badVerb e).data with
      | nil => rw [hd] at hb; exact absurd hb (by simp)
      | cons c cs => rw [hd] at hb; simpa using hb

/-- The message a call returns is never the text of the start-up notification. -/
theorem formatNotification_message_ne_up (badVerb : JVal → String) (data : Option JVal)
    (m : StatusMap) (ret : Ret) (h : formatNotification badVerb data m = some ret) :
    ret.message ≠ "Your Bot is UP!" := by
  cases hact : activitiesOf data with
  | none =>
    obtain ⟨e, he⟩ := formatNotification_of_no_activities badVerb m hact
    rw [he] at h
    cases Option.some.inj h
    show ("" : String) ≠ "Your Bot is UP!"
    decide
  | some ds =>
    rw [formatNotification_of_activities badVerb m hact] at h
    cases hloop : formatLoop badVerb (startAcc m) ds with
    | none => rw [hloop] at h; exact absurd h (by simp)
    | some st' =>
      rw [hloop] at h
      cases Option.some.inj h
      obtain ⟨hmsg, -, -, -⟩ := formatLoop_spec badVerb ds (startAcc m) st' hloop
      have hmsg1 : st'.message = concatBlocks badVerb (blocksEmitted badVerb (startAcc m) ds) := by
        rw [hmsg]; simp [startAcc]
      intro hup
      simp only at hup
      rcases concatBlocks_head badVerb (blocksEmitted badVerb (startAcc m) ds) with hc | hc
      · rw [← hmsg1, hup] at hc
        exact absurd hc (by decide)
      · rw [← hmsg1, hup] at hc
        exact absurd hc (by decide)

/-- The calls of a tick: the start-up notification when `firstRun` is set, then at
most one further call, which is not the start-up notification. -/
theorem checkForChanges_calls (badVerb : JVal → String) (g : Globals) (inp : TickInput) :
    ∃ extra : List Call, (checkForChanges badVerb g inp).calls =
        (if g.firstRun then [upCall] else []) ++ extra ∧ upCall ∉ extra := by
  unfold checkForChanges
  cases hf : inp.fetched with
  | failed => exact ⟨[], by simp, by simp⟩
  | body data =>
    simp only
    cases hfn : formatNotification badVerb data g.lastResponse with
    | none => exact ⟨[], by simp, by simp⟩
    | some ret =>
      simp only
      cases herr : ret.err with
      | some e => exact ⟨[], by simp, by simp⟩
      | none =>
        simp only
        by_cases hmsg : ret.message = ""
        · exact ⟨[], by simp [hmsg], by simp⟩
        · refine ⟨[⟨ret.message, ret.imageURL⟩], by simp [hmsg], ?_⟩
          intro hmem
          rw [List.mem_singleton] at hmem
          have hm : ret.message = "Your Bot is UP!" := by
            have := congrArg Call.message hmem
            simpa [upCall] using this.symm
          exact formatNotification_message_ne_up badVerb data g.lastResponse ret hfn hm

/-- After a tick that did not panic `firstRun` is false. -/
theorem checkForChanges_firstRun (badVerb : JVal → String) (g g1 : Globals) (inp : TickInput)
    (h : (checkForChanges badVerb g inp).next = some g1) : g1.firstRun = false := by
  have hflag : (if g.firstRun = true then false else g.firstRun) = false := by
    cases g.firstRun <;> rfl
  unfold checkForChanges at h
  cases hf : inp.fetched with
  | failed =>
    rw [hf] at h
    simp only at h
    rw [← Option.some.inj h]
    exact hflag
  | body data =>
    rw [hf] at h
    simp only at h
    cases hfn : formatNotification badVerb data g.lastResponse with
    | none => rw [hfn] at h; exact absurd h (by simp)
    | some ret =>
      rw [hfn] at h
      simp only at h
      cases herr : ret.err with
      | some e =>
        rw [herr] at h
        simp only at h
        rw [← Option.some.inj h]
        exact hflag
      | none =>
        rw [herr] at h
        simp only at h
        by_cases hmsg : ret.message = ""
        · simp only [hmsg, ne_eq, not_true_eq_false, if_false] at h
          rw [← Option.some.inj h]
          exact hflag
        · simp only [hmsg, ne_eq, not_false_eq_true, if_true] at h
          rw [← Option.some.inj h]
          exact hflag

/-- From a state with `firstRun` false no tick sends the start-up notification,
and `firstRun` stays false. -/
theorem runTicks_steady (badVerb : JVal → String) :
    ∀ (inputs : List TickInput) (g : Globals), g.firstRun = false →
      ∀ r ∈ runTicks badVerb g inputs,
        upCall ∉ r.calls ∧ ∀ g1, r.next = some g1 → g1.firstRun = false := by
  intro inputs
  induction inputs with
  | nil => intro g _ r hr; simp [runTicks] at hr
  | cons inp rest ih =>
    intro g hg r hr
    have hhead : upCall ∉ (checkForChanges badVerb g inp).calls := by
      obtain ⟨extra, hcalls, hextra⟩ := checkForChanges_calls badVerb g inp
      rw [hcalls, hg]
      simpa using hextra
    simp only [runTicks] at hr
    cases hn : (checkForChanges badVerb g inp).next with
    | none =>
      rw [hn] at hr
      simp only [List.mem_singleton] at hr
      subst hr
      exact ⟨hhead, fun g1 h1 => by rw [hn] at h1; exact absurd h1 (by simp)⟩
    | some g1 =>
      rw [hn] at hr
      simp only [List.mem_cons] at hr
      rcases hr with hr0 | hr1
      · subst hr0
        exact ⟨hhead, fun g2 h2 => checkForChanges_firstRun badVerb g g2 inp h2⟩
      · exact ih g1 (checkForChanges_firstRun badVerb g g1 inp hn) r hr1

/-- The globals a tick leaves: a failed fetch keeps the map, a body on which the
change detector returns gives the map that call left, with `firstRun` false either
way; only a panic of the change detector leaves nothing. -/
theorem checkForChanges_next (badVerb : JVal → String) (g : Globals) (inp : TickInput) :
    (checkForChanges badVerb g inp).next =
      match inp.fetched with
      | Fetched.failed => some ⟨false, g.lastResponse⟩
      | Fetched.body data =>
        (formatNotification badVerb data g.lastResponse).map
          (fun ret => (⟨false, ret.lastResponse⟩ : Globals)) := by
  have hflag : (if g.firstRun = true then false else g.firstRun) = false := by
    cases g.firstRun <;> rfl
  unfold checkForChanges
  cases hf : inp.fetched with
  | failed => simp only [hflag]
  | body data =>
    simp only [hflag]
    cases hfn : formatNotification badVerb data g.lastResponse with
    | none => rfl
    | some ret =>
      simp only [Option.map_some']
      cases herr : ret.err with
      | some e => rfl
      | none =>
        simp only
        by_cases hmsg : ret.message = ""
        · simp only [hmsg, ne_eq, not_true_eq_false, if_false]
        · simp only [hmsg, ne_eq, not_false_eq_true, if_true]

/-- From a state with `firstRun` false every result of the run is a tick made on
one of the inputs from a state with `firstRun` false. -/
theorem runTicks_steady_ticks (badVerb : JVal → String) :
    ∀ (inputs : List TickInput) (g : Globals), g.firstRun = false →
      ∀ r ∈ runTicks badVerb g inputs,
        ∃ (m1 : StatusMap) (i : TickInput), i ∈ inputs ∧
          r = checkForChanges badVerb ⟨false, m1⟩ i := by
  intro inputs
  induction inputs with
  | nil => intro g _ r hr; simp [runTicks] at hr
  | cons inp rest ih =>
    intro g hg r hr
    have hgeq : g = ⟨false, g.lastResponse⟩ := by
      cases g with
      | mk fr lr => simp only at hg; rw [hg]
    have hhead : ∃ (m1 : StatusMap) (i : TickInput), i ∈ inp :: rest ∧
        checkForChanges badVerb g inp = checkForChanges badVerb ⟨false, m1⟩ i :=
      ⟨g.lastResponse, inp, List.mem_cons_self _ _, by rw [← hgeq]⟩
    simp only [runTicks] at hr
    cases hn : (checkForChanges badVerb g inp).next with
    | none =>
      rw [hn] at hr
      simp only [List.mem_singleton] at hr
      subst hr
      exact hhead
    | some g1 =>
      rw [hn] at hr
      simp only [List.mem_cons] at hr
      rcases hr with hr0 | hr1
      · subst hr0
        exact hhead
      · obtain ⟨m1, i, hi, hri⟩ :=
          ih g1 (checkForChanges_firstRun badVerb g g1 inp hn) r hr1
        exact ⟨m1, i, List.mem_cons_of_mem _ hi, hri⟩

/-- A run in which no tick panics has one result for every input. -/
theorem runTicks_length (badVerb : JVal → String) :
    ∀ (inputs : List TickInput) (g : Globals),
      (∀ r ∈ runTicks badVerb g inputs, r.next ≠ none) →
      (runTicks badVerb g inputs).length = inputs.length := by
  intro inputs
  induction inputs with
  | nil => intro g _; rfl
  | cons inp rest ih =>
    intro g hall
    cases hn : (checkForChanges badVerb g inp).next with
    | none =>
      have hmem : checkForChanges badVerb g inp ∈ runTicks badVerb g (inp :: rest) := by
        simp only [runTicks, hn, List.mem_singleton]
      exact absurd hn (hall _ hmem)
    | some g1 =>
      have hrun : runTicks badVerb g (inp :: rest) =
          checkForChanges badVerb g inp :: runTicks badVerb g1 rest := by
        simp only [runTicks, hn]
      rw [hrun] at hall
      rw [hrun, List.length_cons, List.length_cons,
        ih g1 (fun r hr => hall r (List.mem_cons_of_mem _ hr))]

/-- C10: started with `firstRun` set, whatever the fetch returns and whether or
not the two deliveries succeed, the first tick makes the call with the fixed text
`Your Bot is UP!` as its first call and makes it once; a tick started with `firstRun`
false never makes that call; every tick leaves `firstRun` false, with the map kept
after a failed fetch and the map of the change detector after a body, and leaves
nothing only when the change detector panics; in a run of ticks the first result is
the first tick, every later result is a tick made with `firstRun` false on one of the
later inputs and does not make the call, `firstRun` is false after every tick, and
the run has one result for every input unless a tick panics. -/
theorem up_notification_on_first_tick_only (badVerb : JVal → String) (m : StatusMap)
    (inp : TickInput) (rest : List TickInput) :
    (checkForChanges badVerb ⟨true, m⟩ inp).calls.head? = some upCall ∧
    (checkForChanges badVerb ⟨true, m⟩ inp).calls.count upCall = 1 ∧
    (∀ (m1 : StatusMap) (i : TickInput), upCall ∉ (checkForChanges badVerb ⟨false, m1⟩ i).calls) ∧
    (∀ (g : Globals) (i : TickInput),
      (checkForChanges badVerb g i).next =
        match i.fetched with
        | Fetched.failed => some ⟨false, g.lastResponse⟩
        | Fetched.body data =>
          (formatNotification badVerb data g.lastResponse).map
            (fun ret => (⟨false, ret.lastResponse⟩ : Globals))) ∧
    (runTicks badVerb ⟨true, m⟩ (inp :: rest)).head? =
      some (checkForChanges badVerb ⟨true, m⟩ inp) ∧
    (∀ r ∈ (runTicks badVerb ⟨true, m⟩ (inp :: rest)).tail,
      upCall ∉ r.calls ∧
      ∃ (m1 : StatusMap) (i : TickInput), i ∈ rest ∧ r = checkForChanges badVerb ⟨false, m1⟩ i) ∧
    (∀ r ∈ runTicks badVerb ⟨true, m⟩ (inp :: rest), ∀ g1, r.next = some g1 → g1.firstRun = false) ∧
    ((∀ r ∈ runTicks badVerb ⟨true, m⟩ (inp :: rest), r.next ≠ none) →
      (runTicks badVerb ⟨true, m⟩ (inp :: rest)).length = (inp :: rest).length) := by
  obtain ⟨extra, hcalls, hextra⟩ := checkForChanges_calls badVerb ⟨true, m⟩ inp
  simp only [if_true] at hcalls
  refine ⟨by rw [hcalls]; rfl, ?_, ?_, fun g i => checkForChanges_next badVerb g i, ?_, ?_, ?_,
    runTicks_length badVerb (inp :: rest) ⟨true, m⟩⟩
  · rw [hcalls, List.count_append, List.count_eq_zero_of_not_mem hextra]
    simp
  · intro m1 i
    obtain ⟨extra1, hcalls1, hextra1⟩ := checkForChanges_calls badVerb ⟨false, m1⟩ i
    rw [hcalls1]
    simpa using hextra1
  · simp only [runTicks]
    cases (checkForChanges badVerb ⟨true, m⟩ inp).next <;> rfl
  · intro r hr
    simp only [runTicks] at hr
    cases hn : (checkForChanges badVerb ⟨true, m⟩ inp).next with
    | none =>
      rw [hn] at hr
      simp at hr
    | some g1 =>
      rw [hn] at hr
      simp only [List.tail_cons] at hr
      have hg1 := checkForChanges_firstRun badVerb _ g1 inp hn
      exact ⟨(runTicks_steady badVerb rest g1 hg1 r hr).1,
        runTicks_steady_ticks badVerb rest g1 hg1 r hr⟩
  · intro r hr g1 hg1
    simp only [runTicks] at hr
    cases hn : (checkForChanges badVerb ⟨true, m⟩ inp).next with
    | none =>
      rw [hn] at hr
      simp only [List.mem_singleton] at hr
      subst hr
      rw [hn] at hg1
      exact absurd hg1 (by simp)
    | some g2 =>
      rw [hn] at hr
      simp only [List.mem_cons] at hr
      rcases hr with hr0 | hr1
      · subst hr0
        exact checkForChanges_firstRun badVerb _ g1 inp hg1
      · exact (runTicks_steady badVerb rest g2
          (checkForChanges_firstRun badVerb _ g2 inp hn) r hr1).2 g1 hg1

/-- C10 at a concrete run of three ticks from the initial state: a failed fetch
with a failed start-up delivery, then the worked example twice. The calls of the
three ticks are the start-up notification, the change notification, and none. -/
theorem up_notification_on_first_tick_only_witness :
    ((runTicks plainVerb ⟨true, emptyMap⟩ threeTicks).map
        (fun r => (r.calls, r.logs, r.next.map (fun g => g.firstRun))) =
      [([upCall], [LogLine.initialSendError, LogLine.fetchError], some false),
        ([⟨"**Activity:** A\n**Partner:** B\n**Status:** ACTIVE\n", "http://x/img.png"⟩],
          [LogLine.sent], some false),
        ([], [], some false)]) ∧
    (checkForChanges plainVerb ⟨true, emptyMap⟩ ⟨false, Fetched.failed, false⟩).calls.head? =
      some upCall ∧
    (checkForChanges plainVerb ⟨true, emptyMap⟩ ⟨false, Fetched.failed, false⟩).calls.count upCall = 1 ∧
    (∀ (m1 : StatusMap) (i : TickInput), upCall ∉ (checkForChanges plainVerb ⟨false, m1⟩ i).calls) ∧
    (∀ (g : Globals) (i : TickInput),
      (checkForChanges plainVerb g i).next =
        match i.fetched with
        | Fetched.failed => some ⟨false, g.lastResponse⟩
        | Fetched.body data =>
          (formatNotification plainVerb data g.lastResponse).map
            (fun ret => (⟨false, ret.lastResponse⟩ : Globals))) ∧
    (runTicks plainVerb ⟨true, emptyMap⟩ threeTicks).head? =
      some (checkForChanges plainVerb ⟨true, emptyMap⟩ ⟨false, Fetched.failed, false⟩) ∧
    (∀ r ∈ (runTicks plainVerb ⟨true, emptyMap⟩ threeTicks).tail,
      upCall ∉ r.calls ∧
      ∃ (m1 : StatusMap) (i : TickInput), i ∈ threeTicks.tail ∧
        r = checkForChanges plainVerb ⟨false, m1⟩ i) ∧
    (∀ r ∈ runTicks plainVerb ⟨true, emptyMap⟩ threeTicks,
      ∀ g1, r.next = some g1 → g1.firstRun = false) ∧
    ((∀ r ∈ runTicks plainVerb ⟨true, emptyMap⟩ threeTicks, r.next ≠ none) →
      (runTicks plainVerb ⟨true, emptyMap⟩ threeTicks).length = threeTicks.length) :=
  ⟨by decide,
    up_notification_on_first_tick_only plainVerb emptyMap ⟨false, Fetched.failed, false⟩
      [⟨true, Fetched.body (mkPayload [activeRecord]), true⟩,
        ⟨true, Fetched.body (mkPayload [activeRecord]), false⟩]⟩

end BotMbkm
